import Mathlib

/-! Shallow embedding of the frame-difference sampling program in src/app.py
    (class SmartUIExtractor, its output-directory handling and its progress
    side channel).  Pixels are modelled as BGR triples of naturals, images as
    lists of pixel rows, and the real-valued quantities of the program
    (timestamps, thresholds, difference fractions) as rationals. -/

namespace UIX

/-- A pixel in OpenCV channel order: (blue, green, red), each an 8-bit
    intensity 0..255. -/
abbrev Pixel : Type := ℕ × ℕ × ℕ

/-- An image as a list of rows of pixels (a numpy 2-D array of BGR pixels). -/
abbrev Img : Type := List (List Pixel)

/-- A single-channel image. -/
abbrev GrayImg : Type := List (List ℕ)

/-- cv2.cvtColor BGR2GRAY on one 8-bit pixel, OpenCV fixed-point form
    Y = (4899 R + 9617 G + 1868 B + 2^13) >> 14 (app.py lines 24-25). -/
def bgr2grayPixel (p : Pixel) : ℕ :=
  (4899 * p.2.2 + 9617 * p.2.1 + 1868 * p.1 + 8192) / 16384

/-- cv2.cvtColor(img, COLOR_BGR2GRAY) applied to a whole image. -/
def cvtColorBGR2GRAY (img : Img) : GrayImg :=
  img.map (fun row => row.map bgr2grayPixel)

/-- cv2.absdiff: elementwise absolute difference (app.py line 26). -/
def absdiff (a b : GrayImg) : GrayImg :=
  List.zipWith (List.zipWith Nat.dist) a b

/-- cv2.threshold(diff, 30, 255, THRESH_BINARY): value 255 where the input
    strictly exceeds 30, else 0 (app.py line 27). -/
def threshold30 (g : GrayImg) : GrayImg :=
  g.map (fun row => row.map (fun d => if 30 < d then 255 else 0))

/-- np.count_nonzero (app.py line 28). -/
def countNonzero (g : GrayImg) : ℕ :=
  (g.map (fun row => row.countP (fun d => decide (d ≠ 0)))).sum

/-- thresh.shape[0] * thresh.shape[1] (app.py line 29). -/
def totalPixels (g : GrayImg) : ℕ := g.length * g.headI.length

/-- SmartUIExtractor.calculate_difference (app.py lines 23-30). -/
def calculate_difference (img1 img2 : Img) : ℚ :=
  let gray1 := cvtColorBGR2GRAY img1
  let gray2 := cvtColorBGR2GRAY img2
  let diff := absdiff gray1 gray2
  let thresh := threshold30 diff
  (countNonzero thresh : ℚ) / (totalPixels thresh : ℚ)

/-- A well-formed h-by-w image: the stated height, and every row of the
    stated width. -/
def Rect (img : Img) (h w : ℕ) : Prop :=
  img.length = h ∧ ∀ row ∈ img, row.length = w

instance (img : Img) (h w : ℕ) : Decidable (Rect img h w) :=
  inferInstanceAs (Decidable (img.length = h ∧ ∀ row ∈ img, row.length = w))

/-- Whether a pair of pixels counts as changed: absolute luminance difference
    strictly above the fixed cutoff 30. -/
def pixelChanged (pa pb : Pixel) : Bool :=
  decide (30 < Nat.dist (bgr2grayPixel pa) (bgr2grayPixel pb))

/-- Modelled from the spec, for comparison with calculate_difference: the
    number of pixel positions whose absolute luminance difference exceeds
    the cutoff 30. -/
def specChangedCount (a b : Img) : ℕ :=
  ((a.zip b).map (fun rr => (rr.1.zip rr.2).countP (fun pp => pixelChanged pp.1 pp.2))).sum

/-- The character of a decimal digit (48 is the code of the zero digit). -/
def digitChar (d : ℕ) : Char := Char.ofNat (48 + d)

/-- Big-endian decimal digits of a natural number, with explicit fuel kept
    larger than the number so that the recursion is structural. -/
def natToDigitsAux : ℕ → ℕ → List Char → List Char
  | 0, _, acc => acc
  | fuel + 1, n, acc =>
    if n < 10 then digitChar n :: acc
    else natToDigitsAux fuel (n / 10) (digitChar (n % 10) :: acc)

/-- Big-endian decimal digits of a natural number. -/
def natToDigits (n : ℕ) : List Char := natToDigitsAux (n + 1) n []

/-- Decode a digit string back to a natural number. -/
def digitsToNat (l : List Char) : ℕ :=
  l.foldl (fun a c => 10 * a + (c.toNat - 48)) 0

/-- Rounding half to even, the rounding used by Python fixed-point float
    formatting. -/
def roundHalfEven (q : ℚ) : ℤ :=
  if q - ⌊q⌋ < 1/2 then ⌊q⌋
  else if 1/2 < q - ⌊q⌋ then ⌊q⌋ + 1
  else if ⌊q⌋ % 2 = 0 then ⌊q⌋ else ⌊q⌋ + 1

/-- Python format to two fixed decimal places (the :.2f conversion of
    app.py line 70); codes 45 and 46 are the minus sign and the point. -/
def format2 (q : ℚ) : List Char :=
  let m : ℕ := (roundHalfEven (q * 100)).natAbs
  (if q < 0 then [Char.ofNat 45] else [])
    ++ natToDigits (m / 100) ++ [Char.ofNat 46, digitChar (m / 10 % 10), digitChar (m % 10)]

/-- The fixed leading characters of a saved filename. -/
def uiHead : List Char := "ui_".data

/-- The fixed trailing characters of a saved filename. -/
def uiTail : List Char := "s.png".data

/-- The filename of a frame saved at a given timestamp (app.py line 70). -/
def mkFilename (t : ℚ) : String := String.mk (uiHead ++ format2 t ++ uiTail)

/-- os.path.join of the output folder and a relative filename on POSIX
    (app.py line 71); code 47 is the path separator. -/
def pathJoin (folder f : String) : String :=
  String.mk (folder.data ++ [Char.ofNat 47] ++ f.data)

/-- The extractor configuration (SmartUIExtractor.__init__, app.py 19-21). -/
structure SmartUIExtractor where
  threshold : ℚ
  min_time_gap : ℚ

/-- The default configuration: threshold 0.015, minimum gap 0.5 seconds. -/
def defaultExtractor : SmartUIExtractor := ⟨15/1000, 1/2⟩

/-- The record appended for each saved frame (app.py lines 73-77). -/
structure ExtractedItem where
  path : String
  timestamp : ℚ
  filename : String
deriving DecidableEq

/-- The ExtractedItem produced for a save at a given timestamp. -/
def mkItem (folder : String) (t : ℚ) : ExtractedItem :=
  ⟨pathJoin folder (mkFilename t), t, mkFilename t⟩

/-- The saving decision of one loop iteration (app.py lines 61-67). -/
def shouldSave (cfg : SmartUIExtractor) (lastF : Option Img) (lastT t : ℚ) (f : Img) : Bool :=
  match lastF with
  | none => true
  | some lf =>
    if cfg.min_time_gap ≤ t - lastT then decide (cfg.threshold < calculate_difference lf f)
    else false

/-- The while loop of process_video (app.py lines 49-79), with the stream
    already decoded to (frame, timestamp-in-seconds) pairs and the mutable
    last-saved state passed explicitly. -/
def processFrames (cfg : SmartUIExtractor) (folder : String) :
    List (Img × ℚ) → Option Img → ℚ → List ExtractedItem
  | [], _, _ => []
  | (f, t) :: rest, lastF, lastT =>
    if shouldSave cfg lastF lastT t f then
      mkItem folder t :: processFrames cfg folder rest (some f) t
    else
      processFrames cfg folder rest lastF lastT

/-- SmartUIExtractor.process_video (app.py lines 32-82): none models a video
    source that cannot be opened (early return at lines 34-35); the state
    starts with no saved frame and last time -1 (lines 38-39). -/
def process_video (cfg : SmartUIExtractor) (folder : String)
    (source : Option (List (Img × ℚ))) : List ExtractedItem :=
  match source with
  | none => []
  | some frames => processFrames cfg folder frames none (-1)

/-- cv2.imwrite into the output directory: a file of the same name is
    overwritten, any other file is appended (app.py line 72). -/
def writeImage (d : List String) (f : String) : List String :=
  if f ∈ d then d else d ++ [f]

/-- The contents of the output directory after one run, given its prior
    contents: the early return at lines 34-35 happens before the purge at
    lines 42-44, so an unopened source leaves the prior contents in place;
    otherwise the directory is removed and recreated empty, and each saved
    frame is written in order. -/
def dirAfterRun (cfg : SmartUIExtractor) (folder : String) (prior : List String)
    (source : Option (List (Img × ℚ))) : List String :=
  match source with
  | none => prior
  | some frames =>
    (processFrames cfg folder frames none (-1)).foldl
      (fun d it => writeImage d it.filename) []

/-- The loop of process_video together with its progress side channel
    (app.py lines 54-57): an event carrying (min(count/total, 1), count) is
    emitted on every 10th frame when the frame-count hint is positive. -/
def processFramesProg (cfg : SmartUIExtractor) (folder : String) (totalFrames : ℕ) :
    List (Img × ℚ) → ℕ → Option Img → ℚ → List (ℚ × ℕ) × List ExtractedItem
  | [], _, _, _ => ([], [])
  | (f, t) :: rest, frameCount, lastF, lastT =>
    let c := frameCount + 1
    let evs : List (ℚ × ℕ) :=
      if c % 10 = 0 ∧ 0 < totalFrames then [(min ((c : ℚ) / (totalFrames : ℚ)) 1, c)]
      else []
    if shouldSave cfg lastF lastT t f then
      let res := processFramesProg cfg folder totalFrames rest c (some f) t
      (evs ++ res.1, mkItem folder t :: res.2)
    else
      let res := processFramesProg cfg folder totalFrames rest c lastF lastT
      (evs ++ res.1, res.2)

/-- process_video including the progress side channel, with the frame-count
    hint of line 46 passed in. -/
def process_video_prog (cfg : SmartUIExtractor) (folder : String) (totalFrames : ℕ)
    (source : Option (List (Img × ℚ))) : List (ℚ × ℕ) × List ExtractedItem :=
  match source with
  | none => ([], [])
  | some frames => processFramesProg cfg folder totalFrames frames 0 none (-1)

/-- A concrete all-black one-pixel frame. -/
def blackPx : Img := [[(0, 0, 0)]]

/-- A concrete all-white one-pixel frame. -/
def whitePx : Img := [[(255, 255, 255)]]

/-- The output folder used by the application (app.py line 116). -/
def folder0 : String := "temp_frames"

/-- The stale file used in counterexamples about directory purging. -/
def stale0 : String := "stale.png"

lemma row_struct (ra rb : List Pixel) :
    (List.zipWith Nat.dist (ra.map bgr2grayPixel) (rb.map bgr2grayPixel)).map
        (fun d => if 30 < d then 255 else 0)
      = (ra.zip rb).map (fun pp =>
          if 30 < Nat.dist (bgr2grayPixel pp.1) (bgr2grayPixel pp.2) then 255 else 0) := by
  induction ra generalizing rb with
  | nil => simp
  | cons p ra ih =>
    cases rb with
    | nil => simp
    | cons q rb =>
      simp only [List.map_cons, List.zipWith_cons_cons, List.zip_cons_cons]
      rw [ih]

lemma thresh_struct (a b : Img) :
    threshold30 (absdiff (cvtColorBGR2GRAY a) (cvtColorBGR2GRAY b))
      = (a.zip b).map (fun rr => (rr.1.zip rr.2).map (fun pp =>
          if 30 < Nat.dist (bgr2grayPixel pp.1) (bgr2grayPixel pp.2) then 255 else 0)) := by
  induction a generalizing b with
  | nil => simp [cvtColorBGR2GRAY, absdiff, threshold30]
  | cons ra a ih =>
    cases b with
    | nil => simp [cvtColorBGR2GRAY, absdiff, threshold30]
    | cons rb b =>
      simp only [cvtColorBGR2GRAY, List.map_cons, absdiff, List.zipWith_cons_cons,
        threshold30, List.zip_cons_cons]
      rw [row_struct]
      congr 1
      simpa [cvtColorBGR2GRAY, absdiff, threshold30] using ih b

lemma countNonzero_eq (a b : Img) :
    countNonzero (threshold30 (absdiff (cvtColorBGR2GRAY a) (cvtColorBGR2GRAY b)))
      = specChangedCount a b := by
  rw [thresh_struct]
  unfold countNonzero specChangedCount
  rw [List.map_map]
  congr 1
  apply List.map_congr_left
  intro rr _
  simp only [Function.comp]
  rw [List.countP_map]
  apply List.countP_congr
  intro pp _
  by_cases hc : 30 < Nat.dist (bgr2grayPixel pp.1) (bgr2grayPixel pp.2) <;>
    simp [pixelChanged, hc]

lemma dims_thresh (a b : Img) (h w : ℕ) (ha : Rect a h w) (hb : Rect b h w) (hh : 0 < h) :
    totalPixels (threshold30 (absdiff (cvtColorBGR2GRAY a) (cvtColorBGR2GRAY b))) = h * w := by
  rw [thresh_struct]
  obtain ⟨hal, har⟩ := ha
  obtain ⟨hbl, hbr⟩ := hb
  cases a with
  | nil => simp at hal; omega
  | cons ra a =>
    cases b with
    | nil => simp at hbl; omega
    | cons rb b =>
      have hra : ra.length = w := har ra (by simp)
      have hrb : rb.length = w := hbr rb (by simp)
      simp only [List.length_cons] at hal hbl
      unfold totalPixels
      simp only [List.zip_cons_cons, List.map_cons, List.length_cons, List.headI,
        List.length_map, List.length_zip, hra, hrb, Nat.min_self]
      have hlen : a.length ⊓ b.length + 1 = h := by omega
      rw [hlen]

lemma calcDiff_eq (a b : Img) (h w : ℕ) (ha : Rect a h w) (hb : Rect b h w) (hh : 0 < h) :
    calculate_difference a b = (specChangedCount a b : ℚ) / ((h * w : ℕ) : ℚ) := by
  show (countNonzero (threshold30 (absdiff (cvtColorBGR2GRAY a) (cvtColorBGR2GRAY b))) : ℚ)
      / (totalPixels (threshold30 (absdiff (cvtColorBGR2GRAY a) (cvtColorBGR2GRAY b))) : ℚ)
    = (specChangedCount a b : ℚ) / ((h * w : ℕ) : ℚ)
  rw [countNonzero_eq, dims_thresh a b h w ha hb hh]

lemma specChangedCount_le (a b : Img) (h w : ℕ) (ha : Rect a h w) (hb : Rect b h w) :
    specChangedCount a b ≤ h * w := by
  unfold specChangedCount
  refine le_trans (List.sum_le_card_nsmul _ w ?_) ?_
  · intro x hx
    obtain ⟨rr, hrr, rfl⟩ := List.mem_map.mp hx
    obtain ⟨r1, r2⟩ := rr
    refine le_trans (List.countP_le_length _) ?_
    rw [List.length_zip, ha.2 r1 (List.of_mem_zip hrr).1, hb.2 r2 (List.of_mem_zip hrr).2,
      Nat.min_self]
  · rw [List.length_map, List.length_zip, ha.1, hb.1, Nat.min_self, smul_eq_mul]

lemma row_changed_comm (ra rb : List Pixel) :
    (ra.zip rb).countP (fun pp => pixelChanged pp.1 pp.2)
      = (rb.zip ra).countP (fun pp => pixelChanged pp.1 pp.2) := by
  induction ra generalizing rb with
  | nil => cases rb <;> simp
  | cons p ra ih =>
    cases rb with
    | nil => simp
    | cons q rb =>
      simp only [List.zip_cons_cons, List.countP_cons, ih rb]
      congr 1
      simp [pixelChanged, Nat.dist_comm]

lemma specChangedCount_comm (a b : Img) : specChangedCount a b = specChangedCount b a := by
  induction a generalizing b with
  | nil => cases b <;> simp [specChangedCount]
  | cons ra a ih =>
    cases b with
    | nil => simp [specChangedCount]
    | cons rb b =>
      unfold specChangedCount
      simp only [List.zip_cons_cons, List.map_cons, List.sum_cons]
      have hrec := ih b
      unfold specChangedCount at hrec
      rw [hrec, row_changed_comm]

/-- C1: for same-dimension (positive-dimension) frames, calculate_difference
    equals the number of pixels whose absolute luminance difference exceeds 30
    divided by the total pixel count; it is 0 when every pixel delta is at
    most 30 and 1 when every pixel delta exceeds 30. -/
theorem C1_difference_fraction (a b : Img) (h w : ℕ) (ha : Rect a h w) (hb : Rect b h w)
    (hh : 0 < h) (hw : 0 < w) :
    calculate_difference a b = (specChangedCount a b : ℚ) / ((h * w : ℕ) : ℚ)
    ∧ ((∀ rr ∈ a.zip b, ∀ pp ∈ rr.1.zip rr.2,
          Nat.dist (bgr2grayPixel pp.1) (bgr2grayPixel pp.2) ≤ 30) →
        calculate_difference a b = 0)
    ∧ ((∀ rr ∈ a.zip b, ∀ pp ∈ rr.1.zip rr.2,
          30 < Nat.dist (bgr2grayPixel pp.1) (bgr2grayPixel pp.2)) →
        calculate_difference a b = 1) := by
  have hmain := calcDiff_eq a b h w ha hb hh
  refine ⟨hmain, ?_, ?_⟩
  · intro hall
    rw [hmain]
    have hzero : specChangedCount a b = 0 := by
      unfold specChangedCount
      apply List.sum_eq_zero
      intro x hx
      obtain ⟨rr, hrr, rfl⟩ := List.mem_map.mp hx
      apply List.countP_eq_zero.mpr
      intro pp hpp
      simp only [pixelChanged, decide_eq_true_eq]
      exact not_lt.mpr (hall rr hrr pp hpp)
    rw [hzero]
    simp
  · intro hall
    rw [hmain]
    have hfull : specChangedCount a b = h * w := by
      unfold specChangedCount
      have heach : ∀ x ∈ (a.zip b).map (fun rr =>
          (rr.1.zip rr.2).countP (fun pp => pixelChanged pp.1 pp.2)), x = w := by
        intro x hx
        obtain ⟨rr, hrr, rfl⟩ := List.mem_map.mp hx
        obtain ⟨r1, r2⟩ := rr
        rw [List.countP_eq_length.mpr, List.length_zip, ha.2 r1 (List.of_mem_zip hrr).1,
          hb.2 r2 (List.of_mem_zip hrr).2, Nat.min_self]
        intro pp hpp
        simp only [pixelChanged, decide_eq_true_eq]
        exact hall (r1, r2) hrr pp hpp
      rw [List.sum_eq_card_nsmul _ w heach, List.length_map, List.length_zip,
        ha.1, hb.1, Nat.min_self, smul_eq_mul]
    rw [hfull]
    have hpos : ((h * w : ℕ) : ℚ) ≠ 0 := by
      exact_mod_cast Nat.pos_iff_ne_zero.mp (Nat.mul_pos hh hw)
    exact div_self hpos

/-- Witness for C1 at the concrete one-pixel black and white frames. -/
theorem C1_witness :
    Rect blackPx 1 1 ∧ Rect whitePx 1 1 ∧ 0 < 1 ∧
    (calculate_difference blackPx whitePx
        = (specChangedCount blackPx whitePx : ℚ) / ((1 * 1 : ℕ) : ℚ)
      ∧ ((∀ rr ∈ blackPx.zip whitePx, ∀ pp ∈ rr.1.zip rr.2,
            Nat.dist (bgr2grayPixel pp.1) (bgr2grayPixel pp.2) ≤ 30) →
          calculate_difference blackPx whitePx = 0)
      ∧ ((∀ rr ∈ blackPx.zip whitePx, ∀ pp ∈ rr.1.zip rr.2,
            30 < Nat.dist (bgr2grayPixel pp.1) (bgr2grayPixel pp.2)) →
          calculate_difference blackPx whitePx = 1)) :=
  ⟨by decide, by decide, by decide,
    C1_difference_fraction blackPx whitePx 1 1 (by decide) (by decide) (by decide) (by decide)⟩

/-- C10: calculate_difference is symmetric in its two frames, and its value
    lies in the closed interval from 0 to 1. -/
theorem C10_symm_bounded (a b : Img) (h w : ℕ) (ha : Rect a h w) (hb : Rect b h w)
    (hh : 0 < h) (hw : 0 < w) :
    calculate_difference a b = calculate_difference b a
    ∧ 0 ≤ calculate_difference a b ∧ calculate_difference a b ≤ 1 := by
  have hmain := calcDiff_eq a b h w ha hb hh
  refine ⟨?_, ?_, ?_⟩
  · rw [hmain, calcDiff_eq b a h w hb ha hh, specChangedCount_comm]
  · rw [hmain]
    positivity
  · rw [hmain]
    have hpos : (0 : ℚ) < ((h * w : ℕ) : ℚ) := by
      exact_mod_cast Nat.mul_pos hh hw
    rw [div_le_one hpos]
    exact_mod_cast specChangedCount_le a b h w ha hb

/-- Witness for C10 at the concrete one-pixel white and black frames. -/
theorem C10_witness :
    Rect whitePx 1 1 ∧ Rect blackPx 1 1 ∧ 0 < 1 ∧
    (calculate_difference whitePx blackPx = calculate_difference blackPx whitePx
      ∧ 0 ≤ calculate_difference whitePx blackPx
      ∧ calculate_difference whitePx blackPx ≤ 1) :=
  ⟨by decide, by decide, by decide,
    C10_symm_bounded whitePx blackPx 1 1 (by decide) (by decide) (by decide) (by decide)⟩

lemma shouldSave_some_gap {cfg : SmartUIExtractor} {lf : Img} {lastT t : ℚ} {f : Img}
    (hs : shouldSave cfg (some lf) lastT t f = true) :
    cfg.min_time_gap ≤ t - lastT := by
  by_cases hg : cfg.min_time_gap ≤ t - lastT
  · exact hg
  · simp [shouldSave, hg] at hs

lemma processFrames_some_spaced (cfg : SmartUIExtractor) (folder : String) :
    ∀ (frames : List (Img × ℚ)) (lf : Img) (lastT : ℚ),
      (∀ i ∈ (processFrames cfg folder frames (some lf) lastT).head?,
          lastT + cfg.min_time_gap ≤ i.timestamp)
      ∧ List.Chain' (fun i j => cfg.min_time_gap ≤ j.timestamp - i.timestamp)
          (processFrames cfg folder frames (some lf) lastT) := by
  intro frames
  induction frames with
  | nil =>
    intro lf lastT
    simp [processFrames]
  | cons p rest ih =>
    intro lf lastT
    obtain ⟨f, t⟩ := p
    cases hs : shouldSave cfg (some lf) lastT t f with
    | false =>
      simp only [processFrames, hs, Bool.false_eq_true, if_false]
      exact ih lf lastT
    | true =>
      have hgap := shouldSave_some_gap hs
      simp only [processFrames, hs, if_true]
      constructor
      · intro i hi
        simp only [List.head?_cons, Option.mem_def, Option.some.injEq] at hi
        subst hi
        show lastT + cfg.min_time_gap ≤ t
        linarith
      · rw [List.chain'_cons']
        refine ⟨?_, (ih f t).2⟩
        intro y hy
        have := (ih f t).1 y hy
        show cfg.min_time_gap ≤ y.timestamp - (mkItem folder t).timestamp
        have ht : (mkItem folder t).timestamp = t := rfl
        rw [ht]
        linarith

lemma process_video_chain (cfg : SmartUIExtractor) (folder : String)
    (frames : List (Img × ℚ)) :
    List.Chain' (fun i j => cfg.min_time_gap ≤ j.timestamp - i.timestamp)
      (process_video cfg folder (some frames)) := by
  cases frames with
  | nil => simp [process_video, processFrames]
  | cons p rest =>
    obtain ⟨f, t⟩ := p
    have hrun : process_video cfg folder (some ((f, t) :: rest))
        = mkItem folder t :: processFrames cfg folder rest (some f) t := by
      simp [process_video, processFrames, shouldSave]
    rw [hrun, List.chain'_cons']
    refine ⟨?_, (processFrames_some_spaced cfg folder rest f t).2⟩
    intro y hy
    have := (processFrames_some_spaced cfg folder rest f t).1 y hy
    show cfg.min_time_gap ≤ y.timestamp - (mkItem folder t).timestamp
    have ht : (mkItem folder t).timestamp = t := rfl
    rw [ht]
    linarith

/-- C2: on a non-empty stream the first frame is saved unconditionally, so at
    least one item is emitted and the first item carries the first frame's
    timestamp, for every configuration. -/
theorem C2_first_frame_saved (cfg : SmartUIExtractor) (folder : String) (f : Img) (t : ℚ)
    (rest : List (Img × ℚ)) :
    (process_video cfg folder (some ((f, t) :: rest))).head?.map ExtractedItem.timestamp
        = some t
    ∧ 0 < (process_video cfg folder (some ((f, t) :: rest))).length := by
  constructor
  · simp [process_video, processFrames, shouldSave, mkItem]
  · simp [process_video, processFrames, shouldSave]

/-- C3: with positive minTimeGap and a non-decreasing stream, any two
    consecutive emitted items are at least minTimeGap apart and the emitted
    timestamps are strictly increasing. -/
theorem C3_emitted_spacing (cfg : SmartUIExtractor) (folder : String)
    (frames : List (Img × ℚ)) (hgap : 0 < cfg.min_time_gap)
    (_hmono : List.Chain' (fun p q : Img × ℚ => p.2 ≤ q.2) frames) :
    List.Chain' (fun i j => cfg.min_time_gap ≤ j.timestamp - i.timestamp)
      (process_video cfg folder (some frames))
    ∧ List.Pairwise (fun i j => i.timestamp < j.timestamp)
      (process_video cfg folder (some frames)) := by
  have hchain := process_video_chain cfg folder frames
  refine ⟨hchain, ?_⟩
  have hlt : List.Chain' (fun i j : ExtractedItem => i.timestamp < j.timestamp)
      (process_video cfg folder (some frames)) := by
    refine hchain.imp ?_
    intro i j hij
    linarith
  haveI : IsTrans ExtractedItem (fun i j => i.timestamp < j.timestamp) :=
    ⟨fun _ _ _ h1 h2 => lt_trans h1 h2⟩
  exact List.chain'_iff_pairwise.mp hlt

/-- Witness for C3 on a concrete two-frame stream. -/
theorem C3_witness :
    0 < defaultExtractor.min_time_gap
    ∧ List.Chain' (fun p q : Img × ℚ => p.2 ≤ q.2) [(blackPx, 0), (whitePx, 1)]
    ∧ (List.Chain' (fun i j => defaultExtractor.min_time_gap ≤ j.timestamp - i.timestamp)
        (process_video defaultExtractor folder0 (some [(blackPx, 0), (whitePx, 1)]))
      ∧ List.Pairwise (fun i j => i.timestamp < j.timestamp)
        (process_video defaultExtractor folder0 (some [(blackPx, 0), (whitePx, 1)]))) :=
  ⟨by norm_num [defaultExtractor], by norm_num,
    C3_emitted_spacing defaultExtractor folder0 [(blackPx, 0), (whitePx, 1)]
      (by norm_num [defaultExtractor]) (by norm_num)⟩

/-- C4: once the time gap is met, the frame is saved if and only if the
    difference fraction strictly exceeds the threshold; a fraction equal to
    the threshold is skipped. -/
theorem C4_save_decision (cfg : SmartUIExtractor) (folder : String) (lf : Img)
    (lastT t : ℚ) (f : Img) (rest : List (Img × ℚ))
    (hgap : cfg.min_time_gap ≤ t - lastT) :
    (shouldSave cfg (some lf) lastT t f = true
      ↔ cfg.threshold < calculate_difference lf f)
    ∧ (shouldSave cfg (some lf) lastT t f = true →
        processFrames cfg folder ((f, t) :: rest) (some lf) lastT
          = mkItem folder t :: processFrames cfg folder rest (some f) t)
    ∧ (calculate_difference lf f = cfg.threshold →
        processFrames cfg folder ((f, t) :: rest) (some lf) lastT
          = processFrames cfg folder rest (some lf) lastT) := by
  have hiff : shouldSave cfg (some lf) lastT t f = true
      ↔ cfg.threshold < calculate_difference lf f := by
    simp [shouldSave, hgap]
  refine ⟨hiff, ?_, ?_⟩
  · intro hs
    simp [processFrames, hs]
  · intro heq
    have hns : shouldSave cfg (some lf) lastT t f = false := by
      rw [Bool.eq_false_iff]
      intro hs
      exact absurd (hiff.mp hs) (by rw [heq]; exact lt_irrefl _)
    simp [processFrames, hns]

/-- Witness for C4 at a concrete state whose difference fraction is 1. -/
theorem C4_witness :
    defaultExtractor.min_time_gap ≤ 1 - 0
    ∧ ((shouldSave defaultExtractor (some blackPx) 0 1 whitePx = true
        ↔ defaultExtractor.threshold < calculate_difference blackPx whitePx)
      ∧ (shouldSave defaultExtractor (some blackPx) 0 1 whitePx = true →
          processFrames defaultExtractor folder0 [(whitePx, 1)] (some blackPx) 0
            = mkItem folder0 1 :: processFrames defaultExtractor folder0 [] (some whitePx) 1)
      ∧ (calculate_difference blackPx whitePx = defaultExtractor.threshold →
          processFrames defaultExtractor folder0 [(whitePx, 1)] (some blackPx) 0
            = processFrames defaultExtractor folder0 [] (some blackPx) 0)) :=
  ⟨by norm_num [defaultExtractor],
    C4_save_decision defaultExtractor folder0 blackPx 0 1 whitePx []
      (by norm_num [defaultExtractor])⟩

/-- C6: an unopenable source and an opened source with zero frames both
    produce the empty item list, with no error modelled. -/
theorem C6_empty_stream (cfg : SmartUIExtractor) (folder : String) :
    process_video cfg folder none = [] ∧ process_video cfg folder (some []) = [] :=
  ⟨rfl, rfl⟩

/-- C7: three identical frames at times 0, 0.2 and 0.6 with the default
    configuration produce exactly one item, at timestamp 0. -/
theorem C7_three_identical_frames :
    (process_video defaultExtractor folder0
        (some [(blackPx, 0), (blackPx, 1/5), (blackPx, 3/5)])).map ExtractedItem.timestamp
      = [0] := by
  norm_num [process_video, processFrames, shouldSave, mkItem, defaultExtractor,
    calculate_difference, cvtColorBGR2GRAY, absdiff, threshold30, countNonzero,
    totalPixels, bgr2grayPixel, blackPx, Nat.dist, List.headI]

lemma digitChar_toNat : ∀ d < 10, (digitChar d).toNat = 48 + d := by decide

lemma digitChar_injOn : ∀ d1 < 10, ∀ d2 < 10, digitChar d1 = digitChar d2 → d1 = d2 := by
  decide

lemma foldl_natToDigitsAux :
    ∀ (fuel n : ℕ) (acc : List Char), n < fuel →
      List.foldl (fun a c => 10 * a + (c.toNat - 48)) 0 (natToDigitsAux fuel n acc)
        = List.foldl (fun a c => 10 * a + (c.toNat - 48)) n acc := by
  intro fuel
  induction fuel with
  | zero => intro n acc h; omega
  | succ fuel ih =>
    intro n acc h
    by_cases hn : n < 10
    · simp only [natToDigitsAux, hn, if_true, List.foldl_cons]
      rw [digitChar_toNat n hn]
      have he : 10 * 0 + (48 + n - 48) = n := by omega
      rw [he]
    · simp only [natToDigitsAux, hn, if_false]
      rw [ih (n / 10) _ (by omega)]
      simp only [List.foldl_cons]
      rw [digitChar_toNat (n % 10) (by omega)]
      have he : 10 * (n / 10) + (48 + n % 10 - 48) = n := by omega
      rw [he]

lemma digitsToNat_natToDigits (n : ℕ) : digitsToNat (natToDigits n) = n := by
  unfold digitsToNat natToDigits
  rw [foldl_natToDigitsAux (n + 1) n [] (by omega)]
  rfl

lemma natToDigits_inj {m n : ℕ} (h : natToDigits m = natToDigits n) : m = n := by
  have hm := digitsToNat_natToDigits m
  rw [h, digitsToNat_natToDigits] at hm
  omega

lemma roundHalfEven_bounds (q : ℚ) :
    q - 1/2 ≤ (roundHalfEven q : ℚ) ∧ (roundHalfEven q : ℚ) ≤ q + 1/2 := by
  have h1 : ((⌊q⌋ : ℤ) : ℚ) ≤ q := Int.floor_le q
  have h2 : q < ((⌊q⌋ : ℤ) : ℚ) + 1 := Int.lt_floor_add_one q
  unfold roundHalfEven
  split_ifs with ha hb hc <;> constructor <;> push_cast <;> linarith

lemma roundHalfEven_sep {x y : ℚ} (h : x + 1 < y) : roundHalfEven x < roundHalfEven y := by
  have bx := roundHalfEven_bounds x
  have hy := roundHalfEven_bounds y
  have hq : (roundHalfEven x : ℚ) < (roundHalfEven y : ℚ) := by linarith [bx.2, hy.1]
  exact_mod_cast hq

lemma roundHalfEven_nonneg {q : ℚ} (h : 0 ≤ q) : 0 ≤ roundHalfEven q := by
  have hb := (roundHalfEven_bounds q).1
  have h1 : (-1 : ℚ) < (roundHalfEven q : ℚ) := by linarith
  have h2 : (-1 : ℤ) < roundHalfEven q := by exact_mod_cast h1
  omega

lemma format2_inj_nonneg {t1 t2 : ℚ} (h1 : 0 ≤ t1) (h2 : 0 ≤ t2)
    (hm : (roundHalfEven (t1 * 100)).natAbs ≠ (roundHalfEven (t2 * 100)).natAbs) :
    format2 t1 ≠ format2 t2 := by
  intro heq
  simp only [format2] at heq
  rw [if_neg (not_lt.mpr h1), if_neg (not_lt.mpr h2)] at heq
  simp only [List.nil_append] at heq
  set m1 : ℕ := (roundHalfEven (t1 * 100)).natAbs with hm1
  set m2 : ℕ := (roundHalfEven (t2 * 100)).natAbs with hm2
  obtain ⟨hpre, hsuf⟩ := List.append_inj' heq rfl
  have e1 : m1 / 100 = m2 / 100 := natToDigits_inj hpre
  simp only [List.cons.injEq, and_true] at hsuf
  obtain ⟨-, hd1, hd2⟩ := hsuf
  have e2 : m1 / 10 % 10 = m2 / 10 % 10 :=
    digitChar_injOn _ (Nat.mod_lt _ (by omega)) _ (Nat.mod_lt _ (by omega)) hd1
  have e3 : m1 % 10 = m2 % 10 :=
    digitChar_injOn _ (Nat.mod_lt _ (by omega)) _ (Nat.mod_lt _ (by omega)) hd2
  exact hm (by omega)

lemma mkFilename_inj_sep {t1 t2 : ℚ} (h1 : 0 ≤ t1) (h2 : 0 ≤ t2)
    (hsep : t1 * 100 + 1 < t2 * 100) : mkFilename t1 ≠ mkFilename t2 := by
  have hlt : roundHalfEven (t1 * 100) < roundHalfEven (t2 * 100) := roundHalfEven_sep hsep
  have g1 : 0 ≤ roundHalfEven (t1 * 100) :=
    roundHalfEven_nonneg (mul_nonneg h1 (by norm_num))
  have hm : (roundHalfEven (t1 * 100)).natAbs ≠ (roundHalfEven (t2 * 100)).natAbs := by
    omega
  intro heq
  apply format2_inj_nonneg h1 h2 hm
  unfold mkFilename at heq
  injection heq with hdata
  exact List.append_cancel_left (List.append_inj' hdata rfl).1

lemma diff_black_white : calculate_difference blackPx whitePx = 1 := by
  norm_num [calculate_difference, cvtColorBGR2GRAY, absdiff, threshold30, countNonzero,
    totalPixels, bgr2grayPixel, blackPx, whitePx, Nat.dist, List.headI]

lemma mkFilename_zero : mkFilename 0 = "ui_0.00s.png" := by
  norm_num [mkFilename, format2, roundHalfEven, uiHead, uiTail]
  decide

lemma mkFilename_milli : mkFilename (1/1000) = "ui_0.00s.png" := by
  have h1 : ((1:ℚ)/1000 * 100) = 1/10 := by norm_num
  have h2 : (⌊(1:ℚ)/10⌋ : ℤ) = 0 := by norm_num [Int.floor_eq_iff]
  norm_num [mkFilename, format2, roundHalfEven, h1, h2, uiHead, uiTail]
  decide

/-- Counterexample to C8 as stated: with minTimeGap 0.001 s, two frames that
    genuinely differ and are saved 0.001 s apart receive the same filename,
    since both timestamps format to 0.00. -/
theorem C8_collision_counterexample :
    (process_video ⟨15/1000, 1/1000⟩ folder0
        (some [(blackPx, 0), (whitePx, 1/1000)])).map ExtractedItem.filename
      = ["ui_0.00s.png", "ui_0.00s.png"]
    ∧ ¬ ((process_video ⟨15/1000, 1/1000⟩ folder0
        (some [(blackPx, 0), (whitePx, 1/1000)])).map ExtractedItem.filename).Nodup := by
  have hmap : (process_video ⟨15/1000, 1/1000⟩ folder0
      (some [(blackPx, 0), (whitePx, 1/1000)])).map ExtractedItem.filename
      = ["ui_0.00s.png", "ui_0.00s.png"] := by
    norm_num [process_video, processFrames, shouldSave, mkItem, diff_black_white,
      mkFilename_zero, mkFilename_milli]
  exact ⟨hmap, by rw [hmap]; decide⟩

lemma processFrames_mem (cfg : SmartUIExtractor) (folder : String) :
    ∀ (frames : List (Img × ℚ)) (lastF : Option Img) (lastT : ℚ),
      ∀ i ∈ processFrames cfg folder frames lastF lastT,
        i.filename = mkFilename i.timestamp ∧ i.timestamp ∈ frames.map Prod.snd := by
  intro frames
  induction frames with
  | nil =>
    intro lastF lastT i hi
    simp [processFrames] at hi
  | cons p rest ih =>
    intro lastF lastT i hi
    obtain ⟨f, t⟩ := p
    by_cases hs : shouldSave cfg lastF lastT t f = true
    · rw [show processFrames cfg folder ((f, t) :: rest) lastF lastT
          = mkItem folder t :: processFrames cfg folder rest (some f) t from by
        simp [processFrames, hs]] at hi
      rcases List.mem_cons.mp hi with h | h
      · subst h
        refine ⟨rfl, ?_⟩
        simp only [List.map_cons, List.mem_cons]
        exact Or.inl rfl
      · obtain ⟨hf, hts⟩ := ih (some f) t i h
        refine ⟨hf, ?_⟩
        simp only [List.map_cons]
        exact List.mem_cons_of_mem _ hts
    · rw [show processFrames cfg folder ((f, t) :: rest) lastF lastT
          = processFrames cfg folder rest lastF lastT from by
        simp [processFrames, hs]] at hi
      obtain ⟨hf, hts⟩ := ih lastF lastT i hi
      refine ⟨hf, ?_⟩
      simp only [List.map_cons]
      exact List.mem_cons_of_mem _ hts

/-- C8 (amended): filenames are derived deterministically from timestamps, and
    they are pairwise distinct within a run provided the configured minimum
    time gap exceeds 0.01 s (the resolution of the two-decimal format) and the
    stream timestamps are nonnegative. -/
theorem C8_filenames_amended (cfg : SmartUIExtractor) (folder : String)
    (frames : List (Img × ℚ)) (hgap : 1/100 < cfg.min_time_gap)
    (hts : ∀ p ∈ frames, 0 ≤ (p : Img × ℚ).2) :
    (∀ i ∈ process_video cfg folder (some frames), i.filename = mkFilename i.timestamp)
    ∧ ((process_video cfg folder (some frames)).map ExtractedItem.filename).Nodup := by
  have hmem : ∀ i ∈ process_video cfg folder (some frames),
      i.filename = mkFilename i.timestamp ∧ i.timestamp ∈ frames.map Prod.snd :=
    fun i hi => processFrames_mem cfg folder frames none (-1) i hi
  refine ⟨fun i hi => (hmem i hi).1, ?_⟩
  have hchain := process_video_chain cfg folder frames
  haveI : IsTrans ExtractedItem (fun i j => cfg.min_time_gap ≤ j.timestamp - i.timestamp) :=
    ⟨fun a b c hab hbc => by
      have h0 : (0:ℚ) < cfg.min_time_gap := lt_trans (by norm_num) hgap
      linarith⟩
  have hpair := List.chain'_iff_pairwise.mp hchain
  have hpairNe : List.Pairwise (fun a b : ExtractedItem => a.filename ≠ b.filename)
      (process_video cfg folder (some frames)) := by
    refine hpair.imp_of_mem ?_
    intro a b ha hb hab
    have hta : 0 ≤ a.timestamp := by
      obtain ⟨pa, hpa, hpe⟩ := List.mem_map.mp (hmem a ha).2
      exact hpe ▸ hts pa hpa
    have htb : 0 ≤ b.timestamp := by
      obtain ⟨pb, hpb, hpe⟩ := List.mem_map.mp (hmem b hb).2
      exact hpe ▸ hts pb hpb
    rw [(hmem a ha).1, (hmem b hb).1]
    apply mkFilename_inj_sep hta htb
    linarith
  exact List.pairwise_map.mpr hpairNe

/-- Witness for C8 (amended) on a concrete two-frame stream. -/
theorem C8_witness :
    (1/100 : ℚ) < defaultExtractor.min_time_gap
    ∧ (∀ p ∈ [(blackPx, (0:ℚ)), (whitePx, 1)], 0 ≤ (p : Img × ℚ).2)
    ∧ ((∀ i ∈ process_video defaultExtractor folder0 (some [(blackPx, 0), (whitePx, 1)]),
          i.filename = mkFilename i.timestamp)
      ∧ ((process_video defaultExtractor folder0
            (some [(blackPx, 0), (whitePx, 1)])).map ExtractedItem.filename).Nodup) :=
  ⟨by norm_num [defaultExtractor], by norm_num,
    C8_filenames_amended defaultExtractor folder0 [(blackPx, 0), (whitePx, 1)]
      (by norm_num [defaultExtractor]) (by norm_num)⟩

lemma foldl_writeImage_nodup :
    ∀ (l : List String) (d : List String), (∀ x ∈ l, x ∉ d) → l.Nodup →
      l.foldl writeImage d = d ++ l := by
  intro l
  induction l with
  | nil => intro d _ _; simp
  | cons x l ih =>
    intro d hdisj hnd
    have hx : x ∉ d := hdisj x (List.mem_cons_self x l)
    simp only [List.foldl_cons]
    have hw : writeImage d x = d ++ [x] := by simp [writeImage, hx]
    rw [hw, ih (d ++ [x]) ?_ (List.Nodup.of_cons hnd)]
    · simp
    · intro y hy hymem
      rcases List.mem_append.mp hymem with hyd | hyx
      · exact hdisj y (List.mem_cons_of_mem x hy) hyd
      · rw [List.mem_singleton] at hyx
        subst hyx
        exact (List.nodup_cons.mp hnd).1 hy

/-- Counterexample to C5 as stated: when the source cannot be opened, the
    early return precedes the purge, so a stale file from a prior run remains
    in the output directory although zero items are produced. -/
theorem C5_stale_counterexample :
    dirAfterRun defaultExtractor folder0 [stale0] none = [stale0]
    ∧ process_video defaultExtractor folder0 none = []
    ∧ dirAfterRun defaultExtractor folder0 [stale0] none
        ≠ (process_video defaultExtractor folder0 none).map ExtractedItem.filename :=
  ⟨rfl, rfl, by decide⟩

/-- C5 (amended): when the source opens, the purge runs and afterwards the
    directory holds exactly the filenames of the items of that run (given the
    filenames are pairwise distinct); when the source cannot be opened, the
    directory keeps its prior contents unchanged. -/
theorem C5_purge_amended (cfg : SmartUIExtractor) (folder : String) (prior : List String)
    (frames : List (Img × ℚ))
    (hnd : ((process_video cfg folder (some frames)).map ExtractedItem.filename).Nodup) :
    dirAfterRun cfg folder prior (some frames)
      = (process_video cfg folder (some frames)).map ExtractedItem.filename
    ∧ dirAfterRun cfg folder prior none = prior := by
  constructor
  · have hfold : ((process_video cfg folder (some frames)).map
          ExtractedItem.filename).foldl writeImage ([] : List String)
        = (process_video cfg folder (some frames)).foldl
            (fun d it => writeImage d it.filename) ([] : List String) :=
      List.foldl_map _ _ _ _
    show (process_video cfg folder (some frames)).foldl
        (fun d it => writeImage d it.filename) ([] : List String)
      = (process_video cfg folder (some frames)).map ExtractedItem.filename
    rw [← hfold,
      foldl_writeImage_nodup ((process_video cfg folder (some frames)).map
        ExtractedItem.filename) [] (by simp) hnd]
    simp
  · rfl

/-- Witness for C5 (amended) on a concrete one-frame stream with a stale
    prior directory. -/
theorem C5_witness :
    ((process_video defaultExtractor folder0 (some [(blackPx, 0)])).map
        ExtractedItem.filename).Nodup
    ∧ (dirAfterRun defaultExtractor folder0 [stale0] (some [(blackPx, 0)])
        = (process_video defaultExtractor folder0 (some [(blackPx, 0)])).map
            ExtractedItem.filename
      ∧ dirAfterRun defaultExtractor folder0 [stale0] none = [stale0]) := by
  have hnd : ((process_video defaultExtractor folder0 (some [(blackPx, 0)])).map
      ExtractedItem.filename).Nodup := by
    simp [process_video, processFrames, shouldSave, mkItem]
  exact ⟨hnd, C5_purge_amended defaultExtractor folder0 [stale0] [(blackPx, 0)] hnd⟩

lemma processFramesProg_spec (cfg : SmartUIExtractor) (folder : String) (total : ℕ) :
    ∀ (frames : List (Img × ℚ)) (c : ℕ) (lastF : Option Img) (lastT : ℚ),
      (processFramesProg cfg folder total frames c lastF lastT).2
        = processFrames cfg folder frames lastF lastT
      ∧ (total = 0 → (processFramesProg cfg folder total frames c lastF lastT).1 = []) := by
  intro frames
  induction frames with
  | nil =>
    intro c lf lt
    exact ⟨rfl, fun _ => rfl⟩
  | cons p rest ih =>
    intro c lf lt
    obtain ⟨f, t⟩ := p
    constructor
    · by_cases hs : shouldSave cfg lf lt t f = true
      · simp only [processFramesProg, processFrames, hs, if_true]
        simp [(ih (c + 1) (some f) t).1]
      · simp only [processFramesProg, processFrames]
        simp [hs, (ih (c + 1) lf lt).1]
    · intro h0
      subst h0
      by_cases hs : shouldSave cfg lf lt t f = true
      · simp only [processFramesProg]
        simp [hs, (ih (c + 1) (some f) t).2 rfl]
      · simp only [processFramesProg]
        simp [hs, (ih (c + 1) lf lt).2 rfl]

/-- C9: the emitted items are identical with and without the progress side
    channel, for every frame-count hint; with an unknown (zero) hint no
    progress event fires at all and the output is unchanged. -/
theorem C9_progress_no_effect (cfg : SmartUIExtractor) (folder : String) (total : ℕ)
    (source : Option (List (Img × ℚ))) :
    (process_video_prog cfg folder total source).2 = process_video cfg folder source
    ∧ (total = 0 → (process_video_prog cfg folder total source).1 = []) := by
  cases source with
  | none => exact ⟨rfl, fun _ => rfl⟩
  | some frames =>
    exact ⟨(processFramesProg_spec cfg folder total frames 0 none (-1)).1,
      fun h0 => (processFramesProg_spec cfg folder total frames 0 none (-1)).2 h0⟩

/-- Witness for C9 with an unknown (zero) frame-count hint. -/
theorem C9_witness :
    (process_video_prog defaultExtractor folder0 0 (some [(blackPx, 0)])).2
        = process_video defaultExtractor folder0 (some [(blackPx, 0)])
    ∧ (0 = 0 →
        (process_video_prog defaultExtractor folder0 0 (some [(blackPx, 0)])).1 = []) :=
  C9_progress_no_effect defaultExtractor folder0 0 (some [(blackPx, 0)])

end UIX
